import Mathlib

/-!
Shallow embedding of `gdsync.py`, a directory-synchronization orchestrator.

The embedding models:
* the line filter `is_ignored_line` (Python `re.search` with `re.IGNORECASE`,
  restricted to the exact fixed patterns appearing in the source);
* the interactive conflict resolvers `handle_only_local_files` and
  `handle_only_remote_files` over an explicit filesystem model, with user
  input modeled as a list of strings consumed by `input()` calls;
* empty-folder cleanup `rm_empty_folders`;
* the rclone command builder in `run_rclone`;
* the orchestration in `conflicts_check_is_ok` / `run`.

Machine-level conventions: Python file modification times are modeled as `Nat`;
`sys.exit(msg)` exits the process with status code 1; an uncaught Python
exception (e.g. `FileNotFoundError`) is modeled as a `crash` outcome.
-/

namespace GdSync

/-- Python whitespace class `\s` (ASCII part; the source only meets ASCII). -/
def isWSChar (c : Char) : Bool :=
  c == ' ' || c == '\t' || c == '\n' || c == '\r' || c == '\x0b' || c == '\x0c'

/-- Python `str.lower()` (ASCII). -/
def pyLower (s : String) : String := ⟨s.data.map Char.toLower⟩

/-- Python `str.strip()`: drop leading and trailing whitespace. -/
def pyStrip (s : String) : String :=
  ⟨((s.data.dropWhile (isWSChar ·)).reverse.dropWhile (isWSChar ·)).reverse⟩

/-- Regex tokens covering exactly the constructs used by the fixed patterns in
the source: literal characters (compared case-insensitively, for
`re.IGNORECASE`), `.`, `\s`, `\s*`, `.*`, and an optional literal (`s?`). -/
inductive RTok
  | ch (c : Char)
  | anyOne
  | wsOne
  | wsStar
  | anyStar
  | optChar (c : Char)
deriving Repr, DecidableEq

/-- A pattern: optional `^` anchor, token list, optional `$` anchor.
No `re.MULTILINE` is used in the source, so `^` matches only at the start of
the string and `$` at the end or just before a final newline. -/
structure Pat where
  anchorStart : Bool
  toks : List RTok
  anchorEnd : Bool
deriving Repr, DecidableEq

/-- `$` without MULTILINE: end of string, or just before a trailing newline. -/
def atEnd : List Char → Bool
  | [] => true
  | ['\n'] => true
  | _ => false

/-- Match a token list against a position; `ae` records whether the pattern
ends with `$`.  `.` does not match a newline (no `re.DOTALL`).  Structural
recursion on a fuel argument; every recursive call shrinks
`toks.length + cs.length`, so `matchToks` below always supplies enough fuel. -/
def matchToksF : Nat → List RTok → List Char → Bool → Bool
  | 0, _, _, _ => false
  | _ + 1, [], cs, ae => !ae || atEnd cs
  | _ + 1, RTok.ch _ :: _, [], _ => false
  | fuel + 1, RTok.ch c :: ts, d :: cs, ae =>
      (d.toLower == c.toLower) && matchToksF fuel ts cs ae
  | _ + 1, RTok.anyOne :: _, [], _ => false
  | fuel + 1, RTok.anyOne :: ts, d :: cs, ae => (d != '\n') && matchToksF fuel ts cs ae
  | _ + 1, RTok.wsOne :: _, [], _ => false
  | fuel + 1, RTok.wsOne :: ts, d :: cs, ae => isWSChar d && matchToksF fuel ts cs ae
  | fuel + 1, RTok.optChar _ :: ts, [], ae => matchToksF fuel ts [] ae
  | fuel + 1, RTok.optChar c :: ts, d :: cs, ae =>
      (d.toLower == c.toLower && matchToksF fuel ts cs ae) || matchToksF fuel ts (d :: cs) ae
  | fuel + 1, RTok.wsStar :: ts, [], ae => matchToksF fuel ts [] ae
  | fuel + 1, RTok.wsStar :: ts, d :: cs, ae =>
      matchToksF fuel ts (d :: cs) ae || (isWSChar d && matchToksF fuel (RTok.wsStar :: ts) cs ae)
  | fuel + 1, RTok.anyStar :: ts, [], ae => matchToksF fuel ts [] ae
  | fuel + 1, RTok.anyStar :: ts, d :: cs, ae =>
      matchToksF fuel ts (d :: cs) ae || (d != '\n' && matchToksF fuel (RTok.anyStar :: ts) cs ae)

/-- Match a token list at the start of `cs`. -/
def matchToks (ts : List RTok) (cs : List Char) (ae : Bool) : Bool :=
  matchToksF (ts.length + cs.length + 1) ts cs ae

/-- Try an unanchored match at every start position. -/
def searchPos (ts : List RTok) (ae : Bool) : List Char → Bool
  | [] => matchToks ts [] ae
  | c :: cs => matchToks ts (c :: cs) ae || searchPos ts ae cs

/-- Python `re.search(pat, txt, flags=re.IGNORECASE) is not None`. -/
def reSearch (p : Pat) (s : List Char) : Bool :=
  if p.anchorStart then matchToks p.toks s p.anchorEnd
  else searchPos p.toks p.anchorEnd s

/-- Literal characters of a pattern (no metacharacters). -/
def lits (s : String) : List RTok := s.data.map RTok.ch

/-- The always-applied patterns of `is_ignored_line` (source lines 80–87).
`Cryptomator/ipc.socket` contains a regex `.` which matches any character. -/
def genericPats : List Pat := [
  ⟨false, lits "There was nothing to transfer", false⟩,
  ⟨false, lits "Cryptomator/ipc" ++ [RTok.anyOne] ++ lits "socket", false⟩,
  ⟨false, lits "matching files", false⟩,
  ⟨false, lits "INFO" ++ [RTok.wsStar, RTok.ch ':', RTok.wsStar], true⟩,
  ⟨true, lits "Elapsed time:", false⟩,
  ⟨true, [RTok.wsOne], true⟩]

/-- The additional patterns applied only when `mode == "check"`
(source lines 92–103). -/
def checkPats : List Pat := [
  ⟨false, lits "errors while checking", false⟩,
  ⟨false, lits "INFO" ++ [RTok.wsStar, RTok.ch ':', RTok.wsStar], true⟩,
  ⟨true, lits "Transferred:", false⟩,
  ⟨true, lits "Errors:", false⟩,
  ⟨true, lits "Checks:", false⟩,
  ⟨false, lits "file" ++ [RTok.optChar 's'] ++ lits " missing", true⟩,
  ⟨false, lits "differences found", true⟩,
  ⟨false, lits "sizes differ", false⟩,
  ⟨false, lits "ERROR" ++ [RTok.wsStar, RTok.ch ':', RTok.anyStar] ++ lits "file not in", false⟩,
  ⟨false, lits "ERROR" ++ [RTok.wsStar, RTok.ch ':', RTok.anyStar] ++ lits "MD5 differ", false⟩,
  ⟨false, lits "Using md5 for hash comparisons", false⟩]

/-- `is_ignored_line(txt, mode)` from the source: first the generic pattern
loop, then (only for `mode == "check"`) the check-specific loop. -/
def is_ignored_line (txt : String) (mode : String) : Bool :=
  if genericPats.any (fun p => reSearch p txt.data) then true
  else if mode == "check" then checkPats.any (fun p => reSearch p txt.data)
  else false

/-! ## String helpers shared by the resolvers and the command builder -/

/-- Substring test helper: does `pat` occur in the scanned suffix? -/
def hasSubAux (pat : List Char) : List Char → Bool
  | [] => pat.isEmpty
  | c :: cs => pat.isPrefixOf (c :: cs) || hasSubAux pat cs

/-- Python `pat in s` for strings. -/
def hasSub (s pat : List Char) : Bool := hasSubAux pat s

/-- Worker for `pyReplace`: `skip` counts pattern characters still to drop
after a replacement was emitted. -/
def pyReplaceGo (pat rep : List Char) : List Char → Nat → List Char
  | [], _ => []
  | _ :: cs, skip + 1 => pyReplaceGo pat rep cs skip
  | c :: cs, 0 =>
      if pat.isPrefixOf (c :: cs) then rep ++ pyReplaceGo pat rep cs (pat.length - 1)
      else c :: pyReplaceGo pat rep cs 0

/-- Python `s.replace(pat, rep)` for a nonempty `pat`: replace every
non-overlapping occurrence, scanning left to right.  (For `pat = ""` Python
inserts `rep` between all characters; the source never does that.) -/
def pyReplace (s pat rep : List Char) : List Char :=
  if pat = [] then s else pyReplaceGo pat rep s 0

/-! ## Path manipulation (`rm_empty_folders` helpers)

`rm_empty_folders` derives the parent directory of a path with
`re.search("(.+)/[^/]+", f).group(1)`: the captured group is the longest
prefix that is followed by a `/` and at least one further non-`/` character,
i.e. everything before the rightmost `/` that has a non-`/` character after
it.  (`.` in the regex does not match a newline, but the inputs are lines
read from a file and therefore never contain a newline; the model below is
faithful for newline-free paths.) -/

/-- Characters before the rightmost `/` that is immediately followed by a
non-`/` character; `none` when no such `/` exists.  The prefix may be empty
here; `parentDir` rules that out (the regex group is `(.+)`). -/
def rsplitSlash : List Char → Option (List Char)
  | [] => none
  | c :: cs =>
    match rsplitSlash cs with
    | some p => some (c :: p)
    | none =>
      if c == '/' && (match cs.head? with | some d => d != '/' | none => false)
      then some [] else none

/-- `re.search("(.+)/[^/]+", f)`'s group 1: `none` models a failed search
(on which the source crashes with `AttributeError`). -/
def parentDir (f : List Char) : Option (List Char) :=
  match rsplitSlash f with
  | some [] => none
  | some p => some p
  | none => none

/-- The `while "/" in f` loop of `rm_empty_folders`, collecting the chain of
ancestor directories of `f` (nearest first); `none` models the
`AttributeError` crash when the path still contains `/` but the regex fails
(e.g. a trailing slash).  Structural recursion on fuel; `ancestorChain`
supplies sufficient fuel. -/
def ancestorChainF : Nat → List Char → Option (List (List Char))
  | 0, _ => none
  | fuel + 1, f =>
    if f.contains '/' then
      match parentDir f with
      | none => none
      | some d =>
        match ancestorChainF fuel d with
        | none => none
        | some rest => some (d :: rest)
    else some []

def ancestorChain (f : List Char) : Option (List (List Char)) :=
  ancestorChainF (f.length + 1) f

/-! ## Filesystem and run-state model

The local filesystem is a finite map from paths to files (size, mtime and the
list of lines the file holds) plus a set of directories.  Modification times
are `Nat`.  User input is a list of strings consumed by `input()` calls.
Observable side effects are accumulated as an event trace. -/

structure MFile where
  size : Nat
  mtime : Nat
  lines : List String
deriving Repr, DecidableEq

structure FS where
  files : List (String × MFile)
  dirs : List String
deriving Repr, DecidableEq

def FS.lookup (fs : FS) (p : String) : Option MFile :=
  (fs.files.find? (fun e => e.1 == p)).map (fun e => e.2)

/-- `os.path.isfile`. -/
def FS.isfile (fs : FS) (p : String) : Bool := (fs.lookup p).isSome

/-- `os.path.isdir`. -/
def FS.isdir (fs : FS) (p : String) : Bool := fs.dirs.contains p

/-- `os.path.exists`. -/
def FS.pathExists (fs : FS) (p : String) : Bool := fs.isfile p || fs.isdir p

/-- `os.path.getsize`; a directory reports its block size (nonzero). -/
def FS.getsize (fs : FS) (p : String) : Nat :=
  match fs.lookup p with
  | some mf => mf.size
  | none => 4096

/-- `os.stat(p).st_mtime` for a file known to exist. -/
def FS.mtimeOf (fs : FS) (p : String) : Nat :=
  match fs.lookup p with
  | some mf => mf.mtime
  | none => 0

def FS.removeFile (fs : FS) (p : String) : FS :=
  { fs with files := fs.files.filter (fun e => e.1 != p) }

def FS.rmdir (fs : FS) (p : String) : FS :=
  { fs with dirs := fs.dirs.filter (fun d => d != p) }

/-- `open(p, "w").close()`: create or truncate, refreshing the mtime. -/
def FS.touch (fs : FS) (p : String) (now : Nat) : FS :=
  { fs with files := (p, ⟨0, now, []⟩) :: fs.files.filter (fun e => e.1 != p) }

/-- Lines of a text file (each line as the `for line in f` iteration yields
it, before `strip()`). -/
def FS.linesOf (fs : FS) (p : String) : List String :=
  match fs.lookup p with
  | some mf => mf.lines
  | none => []

/-- Parent directory of a path string (`none` for a top-level name). -/
def strParent (s : String) : Option String := (parentDir s.data).map (fun l => ⟨l⟩)

/-- `len(os.listdir(p)) == 0`: no file and no directory has `p` as its
immediate parent. -/
def FS.listdirIsEmpty (fs : FS) (p : String) : Bool :=
  fs.files.all (fun e => strParent e.1 != some p) &&
  fs.dirs.all (fun d => strParent d != some p)

structure RunConfig where
  dryrun : Bool
  sync : Bool
  verbose : Bool
deriving Repr, DecidableEq

inductive Ev
  | prompt
  | rmFile (path : String)
  | rmDir (path : String)
  | scan (localPath remotePath : String)
  | transfer (src dest : String) (upload : Bool) (cmd : String)
  | touch (path : String)
deriving Repr, DecidableEq

/-- How a modeled call ends: a Python return value, `sys.exit` (message exits
carry status code 1), an uncaught exception, or blocking on `input()` with no
input left. -/
inductive Outcome
  | ret (b : Bool)
  | exited (code : Nat) (msg : String)
  | crash (msg : String)
  | blocked
deriving Repr, DecidableEq

structure St where
  fs : FS
  inputs : List String
  evs : List Ev
deriving Repr, DecidableEq

/-- The re-prompting `while rsp.lower() not in valid` loop: consume inputs
until one whose `lower()` is valid, returning it with the remaining inputs
and the number of `input()` calls made. -/
def promptLoop (valid : List String) : List String → Option (String × List String × Nat)
  | [] => none
  | r :: rest =>
    if valid.contains (pyLower r) then some (r, rest, 1)
    else
      match promptLoop valid rest with
      | none => none
      | some (a, rem, n) => some (a, rem, n + 1)

/-! ## `rm_empty_folders` -/

/-- The directory-collection loop of `rm_empty_folders` over all deleted
files; `none` models the `AttributeError` crash. -/
def collectDirs : List String → Option (List String)
  | [] => some []
  | f :: fs =>
    match ancestorChain f.data with
    | none => none
    | some ds =>
      match collectDirs fs with
      | none => none
      | some rest => some (ds.map (fun l => (⟨l⟩ : String)) ++ rest)

/-- Insert into a list sorted by descending string length. -/
def insByLenDesc (a : String) : List String → List String
  | [] => [a]
  | b :: bs => if b.length ≤ a.length then a :: b :: bs else b :: insByLenDesc a bs

/-- Sort by descending string length (Python `sorted(key=len, reverse=True)`;
the order among strings of equal length is unspecified there, since the input
comes from a `set`). -/
def sortByLenDesc : List String → List String
  | [] => []
  | a :: as => insByLenDesc a (sortByLenDesc as)

/-- The candidate list of `rm_empty_folders`: the deduplicated ancestor
directories (Python builds a `set`, whose iteration order is unspecified;
the model picks one), sorted longest path string first as by
`sorted(key=len, reverse=True)`. -/
def orderedDirs (oldfiles : List String) : Option (List String) :=
  (collectDirs oldfiles).map (fun ds => sortByLenDesc ds.dedup)

/-- The removal loop: `os.listdir` on a missing directory raises (`none`);
an empty directory is removed with `os.rmdir`.  Also returns the removed
directories in removal order. -/
def rmGo (localRoot : String) : List String → FS → Option (FS × List String)
  | [], fs => some (fs, [])
  | d :: rest, fs =>
    let fullpath := localRoot ++ "/" ++ d
    if fs.isdir fullpath then
      if fs.listdirIsEmpty fullpath then
        match rmGo localRoot rest (fs.rmdir fullpath) with
        | none => none
        | some (fs2, rem) => some (fs2, d :: rem)
      else rmGo localRoot rest fs
    else none

def rm_empty_folders (localRoot : String) (oldfiles : List String) (fs : FS) :
    Option (FS × List String) :=
  match orderedDirs oldfiles with
  | none => none
  | some ordered => rmGo localRoot ordered fs

/-- Join path components with `/` (specification-side view of a path used to
characterize `ancestorChain`). -/
def joinParts : List (List Char) → List Char
  | [] => []
  | [p] => p
  | p :: q :: rest => p ++ '/' :: joinParts (q :: rest)

/-- The proper ancestors of a path given by its components, nearest ancestor
first: joins of the proper nonempty prefixes of the component list, longest
first. -/
def ancPrefixes (parts : List (List Char)) : List (List Char) :=
  (List.range (parts.length - 1)).reverse.map (fun k => joinParts (parts.take (k + 1)))

/-! ## The two resolvers -/

/-- The stale-file scan of `handle_only_local_files`: for each line of the
local-only list, `strip()` it, `os.stat` the file under `localRoot` (`none`
models the raised `FileNotFoundError`), and keep it when its mtime is
strictly below `synctime`. -/
def computeOldfiles (localRoot : String) (fs : FS) (synctime : Nat) :
    List String → Option (List String)
  | [] => some []
  | ln :: rest =>
    let f := pyStrip ln
    match fs.lookup (localRoot ++ "/" ++ f) with
    | none => none
    | some mf =>
      match computeOldfiles localRoot fs synctime rest with
      | none => none
      | some olds => some (if mf.mtime < synctime then f :: olds else olds)

def localValidRsp : List String := ["y", "n", "a", "q", ""]

/-- `handle_only_local_files` (source lines 139–195). -/
def handle_only_local_files (localRoot remote olf tsf : String) (cfg : RunConfig)
    (st : St) : St × Outcome :=
  if !(st.fs.pathExists olf) || st.fs.getsize olf == 0 then
    -- os.remove(only_local_file) raises when the file does not exist
    if st.fs.isfile olf then
      ({ st with fs := st.fs.removeFile olf, evs := st.evs ++ [Ev.rmFile olf] },
       Outcome.ret true)
    else (st, Outcome.crash "FileNotFoundError")
  else
    match
      (if st.fs.isfile tsf then
        match computeOldfiles localRoot st.fs (st.fs.mtimeOf tsf) (st.fs.linesOf olf) with
        | none => none
        | some olds => some (olds, true)
      else some ([], false))
    with
    | none => (st, Outcome.crash "FileNotFoundError")
    | some (oldfiles, removedList) =>
      let st1 := if removedList then
          { st with fs := st.fs.removeFile olf, evs := st.evs ++ [Ev.rmFile olf] }
        else st
      if oldfiles.isEmpty then (st1, Outcome.ret true)
      else
        match promptLoop localValidRsp st1.inputs with
        | none => ({ st1 with inputs := [] }, Outcome.blocked)
        | some (rsp, rest, n) =>
          let st2 := { st1 with inputs := rest, evs := st1.evs ++ List.replicate n Ev.prompt }
          let r := pyLower rsp
          if r == "a" then (st2, Outcome.ret false)
          else if r == "q" then
            (st2, Outcome.exited 1
              ("aborting " ++ localRoot ++ " <--> " ++ remote ++ " sync AND STOPPING"))
          else if r == "n" then (st2, Outcome.ret true)
          else
            -- default arm: "y" or "" → delete the stale files
            if cfg.dryrun then (st2, Outcome.ret true)
            else
              let fs2 := oldfiles.foldl (fun f o => f.removeFile (localRoot ++ "/" ++ o)) st2.fs
              let st3 := { st2 with
                fs := fs2,
                evs := st2.evs ++ oldfiles.map (fun o => Ev.rmFile (localRoot ++ "/" ++ o)) }
              match rm_empty_folders localRoot oldfiles st3.fs with
              | none => (st3, Outcome.crash "AttributeError")
              | some (fs3, removedDirs) =>
                let st4 := { st3 with
                  fs := fs3,
                  evs := st3.evs ++ removedDirs.map (fun d => Ev.rmDir (localRoot ++ "/" ++ d)) }
                -- input("Hit return to continue: ")
                match st4.inputs with
                | [] => (st4, Outcome.blocked)
                | _ :: moreIn =>
                  ({ st4 with inputs := moreIn, evs := st4.evs ++ [Ev.prompt] },
                   Outcome.ret true)

def remoteValidRsp : List String := ["y", "n", "q", "c", ""]

/-- `handle_only_remote_files` (source lines 217–247); may flip `cfg.sync`. -/
def handle_only_remote_files (localRoot remote orf : String) (cfg : RunConfig)
    (st : St) : St × RunConfig × Outcome :=
  if !(st.fs.pathExists orf) || st.fs.getsize orf == 0 then (st, cfg, Outcome.ret true)
  else
    match promptLoop remoteValidRsp st.inputs with
    | none => ({ st with inputs := [] }, cfg, Outcome.blocked)
    | some (rsp, rest, n) =>
      let st1 := { st with inputs := rest, evs := st.evs ++ List.replicate n Ev.prompt }
      let r := pyLower rsp
      if r == "y" then
        ({ st1 with fs := st1.fs.removeFile orf, evs := st1.evs ++ [Ev.rmFile orf] },
         cfg, Outcome.ret true)
      else if r == "n" then
        ({ st1 with fs := st1.fs.removeFile orf, evs := st1.evs ++ [Ev.rmFile orf] },
         cfg, Outcome.ret false)
      else if r == "q" then
        -- sys.exit before the os.remove: the remote-only list is not deleted
        (st1, cfg, Outcome.exited 1
          ("aborting " ++ localRoot ++ " <--> " ++ remote ++ " sync AND STOPPING"))
      else
        ({ st1 with fs := st1.fs.removeFile orf, evs := st1.evs ++ [Ev.rmFile orf] },
         { cfg with sync := false }, Outcome.ret true)

/-! ## Orchestration -/

/-- Model constant for `os.environ['HOME']`. -/
def homeDir : String := "$HOME"

def only_local_file : String := homeDir ++ "/tmp/onlylocal.txt"

def only_remote_file : String := homeDir ++ "/tmp/onlyremote.txt"

def tstampFile (key : String) : String :=
  homeDir ++ "/tmp/var/gdsync." ++ key ++ ".tstamp"

/-- `check_for_files_not_on_both`: run the external comparison (`scanEff` is
the black-box effect of `rclone check` on the filesystem), then the local
resolver, then — only on a true result — the remote resolver.  A `sys.exit`
or exception propagates. -/
def check_for_files_not_on_both (scanEff : String → String → FS → FS)
    (localRoot remote : String) (cfg : RunConfig) (tsf : String) (st : St) :
    St × RunConfig × Outcome :=
  let st1 := { st with
    fs := scanEff localRoot remote st.fs,
    evs := st.evs ++ [Ev.scan localRoot remote] }
  match handle_only_local_files localRoot remote only_local_file tsf cfg st1 with
  | (st2, Outcome.ret true) => handle_only_remote_files localRoot remote only_remote_file cfg st2
  | (st2, Outcome.ret false) => (st2, cfg, Outcome.ret false)
  | (st2, o) => (st2, cfg, o)

/-- One entry of `syncdirs`: `{ "local": …, "remote": …, BACKUP_ONLY: … }`. -/
structure DirConf where
  localPath : String
  remotePath : String
  backupOnly : Bool
deriving Repr, DecidableEq

/-- `conflicts_check_is_ok` (source lines 292–296). -/
def conflicts_check_is_ok (scanEff : String → String → FS → FS) (dc : DirConf)
    (cfg : RunConfig) (tsf : String) (st : St) : St × RunConfig × Outcome :=
  if dc.backupOnly || !cfg.sync then (st, cfg, Outcome.ret true)
  else check_for_files_not_on_both scanEff dc.localPath dc.remotePath cfg tsf st

/-- The rclone command string built by `run_rclone` (source lines 250–256),
including the `replace("-u", "-un")` applied under `--dryrun`. -/
def run_rclone_cmd (src dest : String) (upload : Bool) (cfg : RunConfig) : String :=
  let copy_cmd := if cfg.sync && upload then "sync" else "copy"
  let rclone_cmd := "rclone " ++ copy_cmd ++ " -u " ++
    (if upload then "--delete-excluded " else "") ++ src ++ " " ++ dest
  if cfg.dryrun then ⟨pyReplace rclone_cmd.data "-u".data "-un".data⟩ else rclone_cmd

/-- The body of `run` for one directory key (source lines 304–315): conflict
check, marker touch (skipped on dry-run), upload transfer, and a download
transfer only when the pair is not backup-only.  A false conflict check skips
the pair; the run continues (`Outcome.ret`). -/
def runPair (scanEff : String → String → FS → FS) (now : Nat) (key : String)
    (dc : DirConf) (cfg : RunConfig) (st : St) : St × RunConfig × Outcome :=
  let tsf := tstampFile key
  match conflicts_check_is_ok scanEff dc cfg tsf st with
  | (st1, cfg1, Outcome.ret true) =>
    let st2 := if cfg1.dryrun then st1
      else { st1 with fs := st1.fs.touch tsf now, evs := st1.evs ++ [Ev.touch tsf] }
    let st3 := { st2 with evs := st2.evs ++
      [Ev.transfer dc.localPath dc.remotePath true
        (run_rclone_cmd dc.localPath dc.remotePath true cfg1)] }
    let st4 := if dc.backupOnly then st3
      else { st3 with evs := st3.evs ++
        [Ev.transfer dc.remotePath dc.localPath false
          (run_rclone_cmd dc.remotePath dc.localPath false cfg1)] }
    (st4, cfg1, Outcome.ret true)
  | (st1, cfg1, Outcome.ret false) => (st1, cfg1, Outcome.ret true)
  | (st1, cfg1, o) => (st1, cfg1, o)

/-- The `for dirtosync in dirs` loop of `run`: pairs are processed strictly
in sequence; `sys.exit` or an exception stops the whole run. -/
def runDirs (scanEff : String → String → FS → FS) (now : Nat) :
    List (String × DirConf) → RunConfig → St → St × RunConfig × Outcome
  | [], cfg, st => (st, cfg, Outcome.ret true)
  | (key, dc) :: rest, cfg, st =>
    match runPair scanEff now key dc cfg st with
    | (st1, cfg1, Outcome.ret _) => runDirs scanEff now rest cfg1 st1
    | stop => stop

/-! ## Concrete fixtures used in examples and witnesses -/

/-- A run configuration with sync on, no dry-run, no verbose. -/
def cfgS : RunConfig := ⟨false, true, false⟩

/-- A filesystem holding a non-empty local-only list (one stale entry `x`),
a marker newer than `L/x`, and the user file `L/x`. -/
def fsS : FS :=
  ⟨[("olf", ⟨2, 0, ["x\n"]⟩), ("ts", ⟨0, 10, []⟩), ("L/x", ⟨3, 5, []⟩)], []⟩

/-- A filesystem holding a non-empty remote-only list. -/
def fsR : FS := ⟨[("orf", ⟨5, 0, ["r.txt\n"]⟩)], []⟩

end GdSync

section Examples
open GdSync
example : is_ignored_line "Elapsed time: 3s" "" = true := by decide
example : is_ignored_line " " "" = true := by decide
example : is_ignored_line "2024/01/01 INFO  : " "" = true := by decide
example : is_ignored_line "errors while checking" "" = false := by decide
example : is_ignored_line "errors while checking" "check" = true := by decide
example : is_ignored_line "3 files missing" "check" = true := by decide
example : is_ignored_line "1 file missing" "check" = true := by decide
example : is_ignored_line "ERROR : x: file not in local" "check" = true := by decide
example : is_ignored_line "hello world" "check" = false := by decide
example : is_ignored_line "Transferred: 12" "check" = true := by decide
example : is_ignored_line "xTransferred: 12" "check" = false := by decide
example : is_ignored_line "5 differences found\n" "check" = true := by decide

example :
    (handle_only_local_files "L" "R" "olf" "ts" cfgS ⟨fsS, ["q"], []⟩).2 =
      Outcome.exited 1 "aborting L <--> R sync AND STOPPING" := by decide

example :
    (handle_only_local_files "L" "R" "olf" "ts" cfgS ⟨fsS, ["zz", "A"], []⟩).2 =
      Outcome.ret false := by decide

example :
    (handle_only_local_files "L" "R" "olf" "ts" cfgS ⟨fsS, ["", "go"], []⟩) =
      (⟨⟨[("ts", ⟨0, 10, []⟩)], []⟩, [],
        [Ev.rmFile "olf", Ev.prompt, Ev.rmFile "L/x", Ev.prompt]⟩,
       Outcome.ret true) := by decide

example :
    rm_empty_folders "L" ["a/b/c.txt"] ⟨[], ["L/a", "L/a/b"]⟩ =
      some (⟨[], []⟩, ["a/b", "a"]) := by decide

example :
    rm_empty_folders "L" ["a/b/c.txt"] ⟨[("L/a/keep.txt", ⟨1, 0, []⟩)], ["L/a", "L/a/b"]⟩ =
      some (⟨[("L/a/keep.txt", ⟨1, 0, []⟩)], ["L/a"]⟩, ["a/b"]) := by decide

example :
    handle_only_remote_files "L" "R" "orf" cfgS ⟨fsR, ["C"], []⟩ =
      (⟨⟨[], []⟩, [], [Ev.prompt, Ev.rmFile "orf"]⟩, ⟨false, false, false⟩,
       Outcome.ret true) := by decide

example :
    handle_only_remote_files "L" "R" "orf" cfgS ⟨fsR, ["q"], []⟩ =
      (⟨fsR, [], [Ev.prompt]⟩, cfgS,
       Outcome.exited 1 "aborting L <--> R sync AND STOPPING") := by decide

example :
    run_rclone_cmd "/h/v" "gd:sh/v" true ⟨true, true, false⟩ =
      "rclone sync -un --delete-excluded /h/v gd:sh/v" := by decide

example :
    run_rclone_cmd "gd:sh/v" "/h/v" false ⟨false, true, false⟩ =
      "rclone copy -u gd:sh/v /h/v" := by decide
end Examples

namespace GdSync

/-! ## Basic lemmas about path splitting -/

theorem rsplitSlash_length {cs p} (h : rsplitSlash cs = some p) : p.length < cs.length := by
  induction cs generalizing p with
  | nil => simp [rsplitSlash] at h
  | cons c cs ih =>
    rw [rsplitSlash] at h
    cases hr : rsplitSlash cs with
    | some q =>
      rw [hr] at h
      cases h
      simpa using Nat.succ_lt_succ (ih hr)
    | none =>
      rw [hr] at h
      cases hb : (c == '/' && (match cs.head? with | some d => d != '/' | none => false)) with
      | true => rw [hb] at h; simp only [if_true] at h; cases h; simp
      | false => rw [hb] at h; simp only [if_false] at h; cases h

theorem parentDir_length {f p} (h : parentDir f = some p) : p.length < f.length := by
  unfold parentDir at h
  cases hr : rsplitSlash f with
  | none => rw [hr] at h; cases h
  | some q =>
    rw [hr] at h
    match q, h with
    | _ :: _, rfl => exact rsplitSlash_length hr

theorem ancestorChainF_fuel : ∀ (fuel fuel2 : Nat) (f : List Char),
    f.length < fuel → f.length < fuel2 →
    ancestorChainF fuel f = ancestorChainF fuel2 f := by
  intro fuel
  induction fuel with
  | zero => intro _ _ h1 _; exact absurd h1 (Nat.not_lt_zero _)
  | succ n ih =>
    intro fuel2 f h1 h2
    match fuel2, h2 with
    | m + 1, h2 =>
      simp only [ancestorChainF]
      cases hc : f.contains '/' with
      | false => simp
      | true =>
        cases hp : parentDir f with
        | none => simp
        | some d =>
          have hd := parentDir_length hp
          have heq : ancestorChainF n d = ancestorChainF m d := by
            apply ih m d <;> omega
          simp [heq]

/-! ## General lemmas about the resolvers -/

/-- When the local-only list file exists with nonzero size but the marker
file is not a file, `handle_only_local_files` returns `true` and leaves the
whole state — filesystem, pending inputs, event trace — unchanged: no prompt
is issued and nothing (not even the list file) is deleted. -/
theorem hol_no_marker_frame (localRoot remote olf tsf : String) (cfg : RunConfig)
    (st : St) (mf : MFile) (hlist : st.fs.lookup olf = some mf) (hsz : mf.size ≠ 0)
    (hts : st.fs.isfile tsf = false) :
    handle_only_local_files localRoot remote olf tsf cfg st = (st, Outcome.ret true) := by
  have hf : st.fs.isfile olf = true := by simp [FS.isfile, hlist]
  have hex : st.fs.pathExists olf = true := by simp [FS.pathExists, hf]
  have hgs : st.fs.getsize olf = mf.size := by simp [FS.getsize, hlist]
  simp [handle_only_local_files, hex, hgs, hsz, hts]

end GdSync

namespace GdSync

/-- C7: `is_ignored_line` is a pure function (it is a Lean function of the
line and the context, so purity is immediate); every line ignored in the
generic context is ignored in "check" context, and "errors while checking"
is ignored in "check" context but not generically, so the "check" filter is
a strict superset of the generic filter. -/
theorem c7_check_filter_strict_superset :
    (∀ txt : String, is_ignored_line txt "" = true → is_ignored_line txt "check" = true) ∧
    is_ignored_line "errors while checking" "check" = true ∧
    is_ignored_line "errors while checking" "" = false := by
  refine ⟨fun txt h => ?_, by decide, by decide⟩
  unfold is_ignored_line at h ⊢
  by_cases hg : genericPats.any (fun p => reSearch p txt.data) = true
  · rw [if_pos hg]
  · rw [if_neg hg] at h
    rw [if_neg (by decide : ¬((("" : String) == "check") = true))] at h
    exact absurd h (by simp)

/-- Witness for C7 at a concrete line. -/
theorem c7_check_filter_strict_superset_witness :
    is_ignored_line "matching files" "check" = true :=
  c7_check_filter_strict_superset.1 "matching files" (by decide)

/-- C1: the spec says an absent local-only list is "nothing to resolve" and
the resolver returns true, but the code reaches `os.remove(only_local_file)`
with the file absent and crashes with `FileNotFoundError`; only the
size-zero case returns true without prompting. -/
theorem c1_missing_list_file_crashes (localRoot remote olf tsf : String)
    (cfg : RunConfig) (st : St) (h : st.fs.pathExists olf = false) :
    handle_only_local_files localRoot remote olf tsf cfg st =
      (st, Outcome.crash "FileNotFoundError") := by
  have hf : st.fs.isfile olf = false := by
    have h2 := h
    unfold FS.pathExists at h2
    exact (Bool.or_eq_false_iff.mp h2).1
  simp [handle_only_local_files, h, hf]

/-- Witness for C1: with an empty filesystem the resolver crashes; and on an
existing but empty list file it deletes the list and proceeds with no
prompt (the part of the claim that does hold). -/
theorem c1_missing_list_file_crashes_witness :
    (FS.pathExists ⟨[], []⟩ "olf" = false ∧
      handle_only_local_files "L" "R" "olf" "ts" ⟨false, true, false⟩ ⟨⟨[], []⟩, [], []⟩ =
        (⟨⟨[], []⟩, [], []⟩, Outcome.crash "FileNotFoundError")) ∧
    handle_only_local_files "L" "R" "olf" "ts" ⟨false, true, false⟩
        ⟨⟨[("olf", ⟨0, 0, []⟩)], []⟩, [], []⟩ =
      (⟨⟨[], []⟩, [], [Ev.rmFile "olf"]⟩, Outcome.ret true) :=
  ⟨⟨by decide,
    c1_missing_list_file_crashes "L" "R" "olf" "ts" ⟨false, true, false⟩
      ⟨⟨[], []⟩, [], []⟩ (by decide)⟩,
   by decide⟩

/-- C10: when the marker file does not exist and the local-only list file
(at the fixed shared path `only_local_file`) exists and is non-empty, the
resolver returns true with the state untouched: no prompt, no file deleted,
and the list file left on disk.  (`only_local_file` is a program constant,
so the same path is read by every subsequent pair's scan.) -/
theorem c10_no_marker_returns_true_frame (localRoot remote tsf : String)
    (cfg : RunConfig) (st : St) (mf : MFile)
    (hlist : st.fs.lookup only_local_file = some mf) (hsz : mf.size ≠ 0)
    (hts : st.fs.isfile tsf = false) :
    handle_only_local_files localRoot remote only_local_file tsf cfg st =
      (st, Outcome.ret true) :=
  hol_no_marker_frame localRoot remote only_local_file tsf cfg st mf hlist hsz hts

/-- Witness for C10. -/
theorem c10_no_marker_returns_true_frame_witness :
    handle_only_local_files "L" "R" only_local_file "ts" ⟨false, true, false⟩
        ⟨⟨[(only_local_file, ⟨2, 0, ["x\n"]⟩)], []⟩, ["y"], []⟩ =
      (⟨⟨[(only_local_file, ⟨2, 0, ["x\n"]⟩)], []⟩, ["y"], []⟩, Outcome.ret true) :=
  c10_no_marker_returns_true_frame "L" "R" "ts" ⟨false, true, false⟩
    ⟨⟨[(only_local_file, ⟨2, 0, ["x\n"]⟩)], []⟩, ["y"], []⟩ ⟨2, 0, ["x\n"]⟩
    (by decide) (by decide) (by decide)

/-- C3: with a non-empty remote-only list, when the accepted response (the
`while` loop re-prompts until the lowercased input is one of
`y`/`n`/`q`/`c`/empty) is none of `y`, `n`, `q` — i.e. `c` or the empty
string, case-insensitively — the resolver sets `cfg.sync := false` and
returns true (deleting the list file). -/
theorem c3_other_input_downgrades_to_copy (localRoot remote orf : String)
    (cfg : RunConfig) (st : St) (mf : MFile) (rsp : String) (rest : List String)
    (n : Nat) (hor : st.fs.lookup orf = some mf) (hsz : mf.size ≠ 0)
    (hp : promptLoop remoteValidRsp st.inputs = some (rsp, rest, n))
    (hy : pyLower rsp ≠ "y") (hn : pyLower rsp ≠ "n") (hq : pyLower rsp ≠ "q") :
    handle_only_remote_files localRoot remote orf cfg st =
      ({ st with
          fs := st.fs.removeFile orf,
          inputs := rest,
          evs := st.evs ++ List.replicate n Ev.prompt ++ [Ev.rmFile orf] },
       { cfg with sync := false }, Outcome.ret true) := by
  have hf : st.fs.isfile orf = true := by simp [FS.isfile, hor]
  have hex : st.fs.pathExists orf = true := by simp [FS.pathExists, hf]
  have hgs : st.fs.getsize orf = mf.size := by simp [FS.getsize, hor]
  simp [handle_only_remote_files, hex, hgs, hsz, hp, hy, hn, hq]

/-- Witness for C3 with input "C". -/
theorem c3_other_input_downgrades_to_copy_witness :
    handle_only_remote_files "L" "R" "orf" ⟨false, true, false⟩
        ⟨⟨[("orf", ⟨5, 0, ["r.txt\n"]⟩)], []⟩, ["C"], []⟩ =
      (⟨⟨[], []⟩, [], [Ev.prompt, Ev.rmFile "orf"]⟩, ⟨false, false, false⟩,
       Outcome.ret true) := by
  have h := c3_other_input_downgrades_to_copy "L" "R" "orf" ⟨false, true, false⟩
    ⟨⟨[("orf", ⟨5, 0, ["r.txt\n"]⟩)], []⟩, ["C"], []⟩ ⟨5, 0, ["r.txt\n"]⟩ "C" [] 1
    (by decide) (by decide) (by decide) (by decide) (by decide) (by decide)
  rw [h]
  decide

/-- C2 counterexample: with a non-empty remote-only list and input `q`, the
process exits by `sys.exit` before reaching `os.remove`, so the remote-only
list file is NOT deleted — refuting "the file is always deleted after the
decision, regardless of branch". -/
theorem c2_counterexample_q_skips_deletion :
    handle_only_remote_files "L" "R" "orf" ⟨false, true, false⟩
        ⟨⟨[("orf", ⟨5, 0, ["r.txt\n"]⟩)], []⟩, ["q"], []⟩ =
      (⟨⟨[("orf", ⟨5, 0, ["r.txt\n"]⟩)], []⟩, [], [Ev.prompt]⟩, ⟨false, true, false⟩,
       Outcome.exited 1 "aborting L <--> R sync AND STOPPING") ∧
    FS.pathExists ⟨[("orf", ⟨5, 0, ["r.txt\n"]⟩)], []⟩ "orf" = true := by
  exact ⟨by decide, by decide⟩

/-- C2 (amended): with a non-empty remote-only list, the file is deleted
after the decision on every branch except `q`; on `q` the process
terminates immediately by `sys.exit` (status 1) with the file still on
disk. -/
theorem c2_file_deleted_except_on_q (localRoot remote orf : String)
    (cfg : RunConfig) (st : St) (mf : MFile) (rsp : String) (rest : List String)
    (n : Nat) (hor : st.fs.lookup orf = some mf) (hsz : mf.size ≠ 0)
    (hp : promptLoop remoteValidRsp st.inputs = some (rsp, rest, n)) :
    (pyLower rsp ≠ "q" →
      ((handle_only_remote_files localRoot remote orf cfg st).1).fs =
        st.fs.removeFile orf) ∧
    (pyLower rsp = "q" →
      ((handle_only_remote_files localRoot remote orf cfg st).1).fs = st.fs ∧
      (handle_only_remote_files localRoot remote orf cfg st).2.2 =
        Outcome.exited 1
          ("aborting " ++ localRoot ++ " <--> " ++ remote ++ " sync AND STOPPING")) := by
  have hf : st.fs.isfile orf = true := by simp [FS.isfile, hor]
  have hex : st.fs.pathExists orf = true := by simp [FS.pathExists, hf]
  have hgs : st.fs.getsize orf = mf.size := by simp [FS.getsize, hor]
  constructor
  · intro hq
    by_cases hy : pyLower rsp = "y"
    · simp [handle_only_remote_files, hex, hgs, hsz, hp, hy]
    · by_cases hn : pyLower rsp = "n"
      · simp [handle_only_remote_files, hex, hgs, hsz, hp, hn]
      · simp [handle_only_remote_files, hex, hgs, hsz, hp, hy, hn, hq]
  · intro hq
    constructor
    · simp [handle_only_remote_files, hex, hgs, hsz, hp, hq]
    · simp [handle_only_remote_files, hex, hgs, hsz, hp, hq]

/-- Membership in the stale list computed by `handle_only_local_files`:
a name is stale exactly when it is the `strip()` of some line of the
local-only list and the corresponding file under `localRoot` exists with a
modification time strictly below `synctime`. -/
theorem computeOldfiles_mem (localRoot : String) (fs : FS) (synctime : Nat) :
    ∀ (lns olds : List String), computeOldfiles localRoot fs synctime lns = some olds →
    ∀ f : String, (f ∈ olds ↔ ∃ ln ∈ lns, pyStrip ln = f ∧
      ∃ mf, fs.lookup (localRoot ++ "/" ++ f) = some mf ∧ mf.mtime < synctime) := by
  intro lns
  induction lns with
  | nil =>
    intro olds h f
    simp [computeOldfiles] at h
    subst h
    simp
  | cons ln rest ih =>
    intro olds h f
    rw [computeOldfiles] at h
    cases hx : fs.lookup (localRoot ++ "/" ++ pyStrip ln) with
    | none => rw [hx] at h; cases h
    | some mf =>
      rw [hx] at h
      cases hr : computeOldfiles localRoot fs synctime rest with
      | none => rw [hr] at h; cases h
      | some olds2 =>
        rw [hr] at h
        simp only [Option.some.injEq] at h
        subst h
        by_cases hlt : mf.mtime < synctime
        · rw [if_pos hlt]
          constructor
          · intro hm
            rcases List.mem_cons.mp hm with h1 | h2
            · exact ⟨ln, List.mem_cons_self ln rest, h1.symm, mf, h1 ▸ hx, hlt⟩
            · obtain ⟨ln2, hln2, hs, mf2, hmf2, hlt2⟩ := (ih olds2 hr f).mp h2
              exact ⟨ln2, List.mem_cons_of_mem ln hln2, hs, mf2, hmf2, hlt2⟩
          · rintro ⟨ln2, hln2, hs, mf2, hmf2, hlt2⟩
            rcases List.mem_cons.mp hln2 with rfl | hmem
            · exact List.mem_cons.mpr (Or.inl hs.symm)
            · exact List.mem_cons_of_mem _ ((ih olds2 hr f).mpr ⟨ln2, hmem, hs, mf2, hmf2, hlt2⟩)
        · rw [if_neg hlt]
          constructor
          · intro hm
            obtain ⟨ln2, hln2, hs, mf2, hmf2, hlt2⟩ := (ih olds2 hr f).mp hm
            exact ⟨ln2, List.mem_cons_of_mem ln hln2, hs, mf2, hmf2, hlt2⟩
          · rintro ⟨ln2, hln2, hs, mf2, hmf2, hlt2⟩
            rcases List.mem_cons.mp hln2 with rfl | hmem
            · rw [← hs] at hmf2
              rw [hx] at hmf2
              cases hmf2
              exact absurd hlt2 hlt
            · exact (ih olds2 hr f).mpr ⟨ln2, hmem, hs, mf2, hmf2, hlt2⟩

/-- C4: a listed path enters the stale list iff the marker file exists and
the file's modification time is strictly below the marker's (first
conjunct: the stale scan, which `handle_only_local_files` runs only when
`os.path.isfile(tstamp_file)` holds, with `synctime` the marker's mtime);
and when no marker file exists the resolver returns true with the state
unchanged — no file is classified stale and no prompt occurs (second
conjunct). -/
theorem c4_stale_iff_older_than_marker :
    (∀ (localRoot : String) (fs : FS) (synctime : Nat) (lns olds : List String),
      computeOldfiles localRoot fs synctime lns = some olds →
      ∀ f : String, (f ∈ olds ↔ ∃ ln ∈ lns, pyStrip ln = f ∧
        ∃ mf, fs.lookup (localRoot ++ "/" ++ f) = some mf ∧ mf.mtime < synctime)) ∧
    (∀ (localRoot remote olf tsf : String) (cfg : RunConfig) (st : St) (mf : MFile),
      st.fs.lookup olf = some mf → mf.size ≠ 0 → st.fs.isfile tsf = false →
      handle_only_local_files localRoot remote olf tsf cfg st = (st, Outcome.ret true)) :=
  ⟨computeOldfiles_mem, hol_no_marker_frame⟩

/-- Witness for C4: with the marker at mtime 10, the listed file of mtime 5
is stale while a file of mtime 10 would not be. -/
theorem c4_stale_iff_older_than_marker_witness :
    "x" ∈ ["x"] ↔ ∃ ln ∈ ["x\n"], pyStrip ln = "x" ∧
      ∃ mf, FS.lookup ⟨[("L/x", ⟨3, 5, []⟩)], []⟩ ("L" ++ "/" ++ "x") = some mf ∧
        mf.mtime < 10 :=
  c4_stale_iff_older_than_marker.1 "L" ⟨[("L/x", ⟨3, 5, []⟩)], []⟩ 10 ["x\n"] ["x"]
    (by decide) "x"

/-- Witness for the amended C2 on the `y` branch. -/
theorem c2_file_deleted_except_on_q_witness :
    ((handle_only_remote_files "L" "R" "orf" ⟨false, true, false⟩
        ⟨⟨[("orf", ⟨5, 0, ["r.txt\n"]⟩)], []⟩, ["y"], []⟩).1).fs =
      FS.removeFile ⟨[("orf", ⟨5, 0, ["r.txt\n"]⟩)], []⟩ "orf" :=
  (c2_file_deleted_except_on_q "L" "R" "orf" ⟨false, true, false⟩
      ⟨⟨[("orf", ⟨5, 0, ["r.txt\n"]⟩)], []⟩, ["y"], []⟩ ⟨5, 0, ["r.txt\n"]⟩ "y" [] 1
      (by decide) (by decide) (by decide)).1 (by decide)

/-- C5: in either resolver a (case-insensitive) `q` answer makes the process
exit immediately via `sys.exit` with status 1 (non-zero), and a run stopped
by such an exit processes no subsequent SyncPair (third conjunct: `runDirs`
propagates the exit without touching the remaining pairs); whereas the
abort-pair answer — `a` in the local resolver, `n` in the remote resolver —
only makes the resolver return false, after which the run continues with the
next pair (last conjunct). -/
theorem c5_q_aborts_entire_run :
    (∀ (localRoot remote olf tsf : String) (cfg : RunConfig) (st : St) (mf tmf : MFile)
        (olds : List String) (rsp : String) (rest : List String) (n : Nat),
      st.fs.lookup olf = some mf → mf.size ≠ 0 →
      st.fs.lookup tsf = some tmf →
      computeOldfiles localRoot st.fs tmf.mtime mf.lines = some olds → olds ≠ [] →
      promptLoop localValidRsp st.inputs = some (rsp, rest, n) →
      pyLower rsp = "q" →
      (handle_only_local_files localRoot remote olf tsf cfg st).2 =
        Outcome.exited 1
          ("aborting " ++ localRoot ++ " <--> " ++ remote ++ " sync AND STOPPING")) ∧
    (∀ (localRoot remote orf : String) (cfg : RunConfig) (st : St) (mf : MFile)
        (rsp : String) (rest : List String) (n : Nat),
      st.fs.lookup orf = some mf → mf.size ≠ 0 →
      promptLoop remoteValidRsp st.inputs = some (rsp, rest, n) →
      pyLower rsp = "q" →
      (handle_only_remote_files localRoot remote orf cfg st).2.2 =
        Outcome.exited 1
          ("aborting " ++ localRoot ++ " <--> " ++ remote ++ " sync AND STOPPING")) ∧
    (∀ (scanEff : String → String → FS → FS) (now : Nat) (key : String) (dc : DirConf)
        (rest : List (String × DirConf)) (cfg : RunConfig) (st : St) (st1 : St)
        (cfg1 : RunConfig) (code : Nat) (msg : String),
      runPair scanEff now key dc cfg st = (st1, cfg1, Outcome.exited code msg) →
      runDirs scanEff now ((key, dc) :: rest) cfg st = (st1, cfg1, Outcome.exited code msg)) ∧
    (∀ (localRoot remote olf tsf : String) (cfg : RunConfig) (st : St) (mf tmf : MFile)
        (olds : List String) (rsp : String) (rest : List String) (n : Nat),
      st.fs.lookup olf = some mf → mf.size ≠ 0 →
      st.fs.lookup tsf = some tmf →
      computeOldfiles localRoot st.fs tmf.mtime mf.lines = some olds → olds ≠ [] →
      promptLoop localValidRsp st.inputs = some (rsp, rest, n) →
      pyLower rsp = "a" →
      (handle_only_local_files localRoot remote olf tsf cfg st).2 = Outcome.ret false) ∧
    (∀ (localRoot remote orf : String) (cfg : RunConfig) (st : St) (mf : MFile)
        (rsp : String) (rest : List String) (n : Nat),
      st.fs.lookup orf = some mf → mf.size ≠ 0 →
      promptLoop remoteValidRsp st.inputs = some (rsp, rest, n) →
      pyLower rsp = "n" →
      (handle_only_remote_files localRoot remote orf cfg st).2.2 = Outcome.ret false) ∧
    (∀ (scanEff : String → String → FS → FS) (now : Nat) (key : String) (dc : DirConf)
        (rest : List (String × DirConf)) (cfg : RunConfig) (st : St) (st1 : St)
        (cfg1 : RunConfig) (b : Bool),
      runPair scanEff now key dc cfg st = (st1, cfg1, Outcome.ret b) →
      runDirs scanEff now ((key, dc) :: rest) cfg st = runDirs scanEff now rest cfg1 st1) := by
  refine ⟨?_, ?_, ?_, ?_, ?_, ?_⟩
  · intro localRoot remote olf tsf cfg st mf tmf olds rsp rest n hol hsz hts hold holds hp hq
    have hf : st.fs.isfile olf = true := by simp [FS.isfile, hol]
    have hex : st.fs.pathExists olf = true := by simp [FS.pathExists, hf]
    have hgs : st.fs.getsize olf = mf.size := by simp [FS.getsize, hol]
    have htsf : st.fs.isfile tsf = true := by simp [FS.isfile, hts]
    have hmt : st.fs.mtimeOf tsf = tmf.mtime := by simp [FS.mtimeOf, hts]
    have hlines : st.fs.linesOf olf = mf.lines := by simp [FS.linesOf, hol]
    have hne : olds.isEmpty = false := by
      cases olds with
      | nil => exact absurd rfl holds
      | cons a as => rfl
    have hqa : pyLower rsp ≠ "a" := by rw [hq]; decide
    simp [handle_only_local_files, hex, hgs, hsz, htsf, hmt, hlines, hold, hne, hp, hq, hqa]
  · intro localRoot remote orf cfg st mf rsp rest n hor hsz hp hq
    have hf : st.fs.isfile orf = true := by simp [FS.isfile, hor]
    have hex : st.fs.pathExists orf = true := by simp [FS.pathExists, hf]
    have hgs : st.fs.getsize orf = mf.size := by simp [FS.getsize, hor]
    have hqy : pyLower rsp ≠ "y" := by rw [hq]; decide
    have hqn : pyLower rsp ≠ "n" := by rw [hq]; decide
    simp [handle_only_remote_files, hex, hgs, hsz, hp, hq, hqy, hqn]
  · intro scanEff now key dc rest cfg st st1 cfg1 code msg h
    simp [runDirs, h]
  · intro localRoot remote olf tsf cfg st mf tmf olds rsp rest n hol hsz hts hold holds hp ha
    have hf : st.fs.isfile olf = true := by simp [FS.isfile, hol]
    have hex : st.fs.pathExists olf = true := by simp [FS.pathExists, hf]
    have hgs : st.fs.getsize olf = mf.size := by simp [FS.getsize, hol]
    have htsf : st.fs.isfile tsf = true := by simp [FS.isfile, hts]
    have hmt : st.fs.mtimeOf tsf = tmf.mtime := by simp [FS.mtimeOf, hts]
    have hlines : st.fs.linesOf olf = mf.lines := by simp [FS.linesOf, hol]
    have hne : olds.isEmpty = false := by
      cases olds with
      | nil => exact absurd rfl holds
      | cons a as => rfl
    simp [handle_only_local_files, hex, hgs, hsz, htsf, hmt, hlines, hold, hne, hp, ha]
  · intro localRoot remote orf cfg st mf rsp rest n hor hsz hp hn
    have hf : st.fs.isfile orf = true := by simp [FS.isfile, hor]
    have hex : st.fs.pathExists orf = true := by simp [FS.pathExists, hf]
    have hgs : st.fs.getsize orf = mf.size := by simp [FS.getsize, hor]
    have hny : pyLower rsp ≠ "y" := by rw [hn]; decide
    simp [handle_only_remote_files, hex, hgs, hsz, hp, hn, hny]
  · intro scanEff now key dc rest cfg st st1 cfg1 b h
    simp [runDirs, h]

/-- Witness for C5: a concrete local resolver call receiving `Q` exits with
status 1. -/
theorem c5_q_aborts_entire_run_witness :
    (handle_only_local_files "L" "R" "olf" "ts" ⟨false, true, false⟩
        ⟨⟨[("olf", ⟨2, 0, ["x\n"]⟩), ("ts", ⟨0, 10, []⟩), ("L/x", ⟨3, 5, []⟩)], []⟩,
         ["Q"], []⟩).2 =
      Outcome.exited 1 "aborting L <--> R sync AND STOPPING" :=
  c5_q_aborts_entire_run.1 "L" "R" "olf" "ts" ⟨false, true, false⟩
    ⟨⟨[("olf", ⟨2, 0, ["x\n"]⟩), ("ts", ⟨0, 10, []⟩), ("L/x", ⟨3, 5, []⟩)], []⟩, ["Q"], []⟩
    ⟨2, 0, ["x\n"]⟩ ⟨0, 10, []⟩ ["x"] "Q" [] 1
    (by decide) (by decide) (by decide) (by decide) (by decide) (by decide) (by decide)

/-! ## Lemmas about `pyReplace` for the command-builder claim -/

theorem string_eq_of_data {a b : String} (h : a.data = b.data) : a = b := by
  cases a; cases b; exact congrArg String.mk h

theorem hasSub_cons (c : Char) (cs pat : List Char) :
    hasSub (c :: cs) pat = (pat.isPrefixOf (c :: cs) || hasSub cs pat) := rfl

/-- A string without an occurrence of the pattern is left unchanged. -/
theorem pyReplaceGo_clean (pat rep : List Char) :
    ∀ s, hasSub s pat = false → pyReplaceGo pat rep s 0 = s := by
  intro s
  induction s with
  | nil => intro _; rfl
  | cons c cs ih =>
    intro h
    rw [hasSub_cons] at h
    obtain ⟨h1, h2⟩ := Bool.or_eq_false_iff.mp h
    simp [pyReplaceGo, h1, ih h2]

/-- C9: the rclone command uses the destructive `sync` subcommand exactly
when `cfg.sync && upload`, and `copy` otherwise; the update-only flag `-u`
is always present; `--delete-excluded` is present exactly when uploading;
and under `--dryrun` the `replace("-u", "-un")` turns the flag into `-un`,
adding rclone's simulate-only `-n` flag.  The hypothesis rules out an
occurrence of `-u` inside the source/destination strings themselves (where
Python's `replace` would also rewrite). -/
theorem c9_run_rclone_command_shape (src dest : String) (upload : Bool)
    (cfg : RunConfig) (h : hasSub (src.data ++ ' ' :: dest.data) ['-', 'u'] = false) :
    run_rclone_cmd src dest upload cfg =
      "rclone " ++ (if cfg.sync && upload then "sync" else "copy") ++
      (if cfg.dryrun then " -un " else " -u ") ++
      (if upload then "--delete-excluded " else "") ++ src ++ " " ++ dest := by
  obtain ⟨dr, sy, vb⟩ := cfg
  cases dr with
  | false => cases sy <;> cases upload <;> simp [run_rclone_cmd]
  | true =>
    cases sy <;> cases upload <;>
      · apply string_eq_of_data
        simp [run_rclone_cmd, pyReplace, String.data_append, pyReplaceGo,
              List.isPrefixOf, pyReplaceGo_clean _ _ _ h]

/-- Witness for C9: concrete dry-run upload in sync mode. -/
theorem c9_run_rclone_command_shape_witness :
    run_rclone_cmd "/h/v" "gd:sh/v" true ⟨true, true, false⟩ =
      "rclone sync -un --delete-excluded /h/v gd:sh/v" := by
  have h := c9_run_rclone_command_shape "/h/v" "gd:sh/v" true ⟨true, true, false⟩ (by decide)
  rw [h]
  decide

/-- C6: a backup-only pair, or a pair run with `syncMode = false`, skips the
conflict-detection protocol entirely — `conflicts_check_is_ok` returns true
with the state untouched (no scan, no prompt, no filesystem change); and for
a backup-only pair `run` performs only the upload-direction transfer (the
event trace gains at most the marker touch and exactly one transfer event,
with `upload = true`). -/
theorem c6_backup_only_skips_conflict_protocol :
    (∀ (scanEff : String → String → FS → FS) (dc : DirConf) (cfg : RunConfig)
        (tsf : String) (st : St),
      (dc.backupOnly || !cfg.sync) = true →
      conflicts_check_is_ok scanEff dc cfg tsf st = (st, cfg, Outcome.ret true)) ∧
    (∀ (scanEff : String → String → FS → FS) (now : Nat) (key : String) (dc : DirConf)
        (cfg : RunConfig) (st : St),
      dc.backupOnly = true →
      runPair scanEff now key dc cfg st =
        ({ st with
            fs := if cfg.dryrun then st.fs else st.fs.touch (tstampFile key) now,
            evs := st.evs ++ (if cfg.dryrun then [] else [Ev.touch (tstampFile key)]) ++
              [Ev.transfer dc.localPath dc.remotePath true
                (run_rclone_cmd dc.localPath dc.remotePath true cfg)] },
         cfg, Outcome.ret true)) := by
  constructor
  · intro scanEff dc cfg tsf st h
    simp [conflicts_check_is_ok, h]
  · intro scanEff now key dc cfg st h
    have hc : (dc.backupOnly || !cfg.sync) = true := by simp [h]
    cases hd : cfg.dryrun with
    | false => simp [runPair, conflicts_check_is_ok, hc, h, hd]
    | true => simp [runPair, conflicts_check_is_ok, hc, h, hd]

/-! ## Lemmas about `rm_empty_folders` for the cleanup claim -/

theorem rsplitSlash_of_no_slash : ∀ p : List Char, '/' ∉ p → rsplitSlash p = none := by
  intro p
  induction p with
  | nil => intro _; rfl
  | cons c cs ih =>
    intro h
    have hc : c ≠ '/' := fun heq => h (heq ▸ List.mem_cons_self c cs)
    have hcs : '/' ∉ cs := fun hm => h (List.mem_cons_of_mem c hm)
    rw [rsplitSlash, ih hcs]
    simp [hc]

theorem rsplitSlash_append (zs q : List Char) (hz : rsplitSlash ('/' :: zs) = some q) :
    ∀ xs : List Char, '/' ∉ xs → rsplitSlash (xs ++ '/' :: zs) = some (xs ++ q) := by
  intro xs
  induction xs with
  | nil => intro _; simpa using hz
  | cons c cs ih =>
    intro h
    have hcs : '/' ∉ cs := fun hm => h (List.mem_cons_of_mem c hm)
    rw [List.cons_append, rsplitSlash, ih hcs]
    rfl

theorem joinParts_cons_ne_nil (p : List Char) (rest : List (List Char)) (hp : p ≠ []) :
    joinParts (p :: rest) ≠ [] := by
  cases rest with
  | nil => simpa [joinParts] using hp
  | cons q rest2 =>
    rw [joinParts]
    cases p with
    | nil => exact absurd rfl hp
    | cons a p2 => simp

theorem joinParts_head (p : List Char) (rest : List (List Char)) (hp : p ≠ []) :
    (joinParts (p :: rest)).head? = p.head? := by
  cases rest with
  | nil => rfl
  | cons q rest2 =>
    rw [joinParts]
    cases p with
    | nil => exact absurd rfl hp
    | cons a p2 => simp

theorem rsplitSlash_joinParts :
    ∀ (rest : List (List Char)) (p q : List Char),
      (∀ r ∈ p :: q :: rest, r ≠ [] ∧ '/' ∉ r) →
      rsplitSlash (joinParts (p :: q :: rest)) =
        some (joinParts ((p :: q :: rest).dropLast)) := by
  intro rest
  induction rest with
  | nil =>
    intro p q hwf
    obtain ⟨hp, hps⟩ := hwf p (by simp)
    obtain ⟨hq, hqs⟩ := hwf q (by simp)
    have h1 : rsplitSlash q = none := rsplitSlash_of_no_slash q hqs
    have h2 : rsplitSlash ('/' :: q) = some [] := by
      rw [rsplitSlash, h1]
      cases q with
      | nil => exact absurd rfl hq
      | cons d q2 =>
        have hd : d ≠ '/' := fun heq => hqs (heq ▸ List.mem_cons_self d q2)
        simp [hd]
    rw [joinParts]
    have hjq : joinParts [q] = q := rfl
    rw [hjq, rsplitSlash_append q [] h2 p hps]
    simp [joinParts]
  | cons r rest2 ih =>
    intro p q hwf
    obtain ⟨hp, hps⟩ := hwf p (by simp)
    have hwf2 : ∀ s ∈ q :: r :: rest2, s ≠ [] ∧ '/' ∉ s := by
      intro s hs
      exact hwf s (List.mem_cons_of_mem p hs)
    have hIH := ih q r hwf2
    have h2 : rsplitSlash ('/' :: joinParts (q :: r :: rest2)) =
        some ('/' :: joinParts ((q :: r :: rest2).dropLast)) := by
      rw [rsplitSlash, hIH]
    rw [joinParts]
    rw [rsplitSlash_append _ _ h2 p hps]
    have hql : (q :: r :: rest2).dropLast = q :: (r :: rest2).dropLast := rfl
    have hpl : (p :: q :: r :: rest2).dropLast = p :: q :: (r :: rest2).dropLast := rfl
    rw [hql, hpl, joinParts]

theorem parentDir_joinParts (p q : List Char) (rest : List (List Char))
    (hwf : ∀ r ∈ p :: q :: rest, r ≠ [] ∧ '/' ∉ r) :
    parentDir (joinParts (p :: q :: rest)) = some (joinParts ((p :: q :: rest).dropLast)) := by
  have hp : p ≠ [] := (hwf p (by simp)).1
  have hne : joinParts ((p :: q :: rest).dropLast) ≠ [] := by
    have : (p :: q :: rest).dropLast = p :: (q :: rest).dropLast := rfl
    rw [this]
    exact joinParts_cons_ne_nil p _ hp
  rw [parentDir, rsplitSlash_joinParts rest p q hwf]
  cases hj : joinParts ((p :: q :: rest).dropLast) with
  | nil => exact absurd hj hne
  | cons a l => rfl

theorem contains_slash_joinParts (p q : List Char) (rest : List (List Char)) :
    (joinParts (p :: q :: rest)).contains '/' = true := by
  rw [joinParts]
  exact List.elem_eq_true_of_mem (List.mem_append_right p (List.mem_cons_self _ _))

theorem ancPrefixes_cons₂ (p q : List Char) (rest : List (List Char)) :
    ancPrefixes (p :: q :: rest) =
      joinParts ((p :: q :: rest).dropLast) :: ancPrefixes ((p :: q :: rest).dropLast) := by
  have hlen : (p :: q :: rest).length - 1 = rest.length + 1 := by simp
  have hdl : (p :: q :: rest).dropLast = (p :: q :: rest).take (rest.length + 1) := by
    rw [List.dropLast_eq_take]
    simp
  unfold ancPrefixes
  rw [hlen, List.range_succ, List.reverse_append]
  simp only [List.reverse_cons, List.reverse_nil, List.nil_append, List.singleton_append,
    List.map_cons]
  congr 1
  · rw [hdl]
  · rw [hdl]
    have hlen2 : ((p :: q :: rest).take (rest.length + 1)).length - 1 = rest.length := by
      simp [List.length_take]
    rw [hlen2]
    apply List.map_congr_left
    intro k hk
    have hk2 : k < rest.length := by simpa using hk
    have hmin : min (k + 1) (rest.length + 1) = k + 1 := Nat.min_eq_left (by omega)
    rw [List.take_take, hmin]

/-- The parent chain computed by `rm_empty_folders` on a well-formed path is
exactly the list of proper ancestor prefixes, nearest (longest) first
(fuel-indexed form). -/
theorem ancestorChainF_joinParts :
    ∀ (fuel : Nat) (parts : List (List Char)),
      (joinParts parts).length < fuel → parts ≠ [] →
      (∀ p ∈ parts, p ≠ [] ∧ '/' ∉ p) →
      ancestorChainF fuel (joinParts parts) = some (ancPrefixes parts) := by
  intro fuel
  induction fuel with
  | zero => intro parts h _ _; exact absurd h (Nat.not_lt_zero _)
  | succ m ih =>
    intro parts hlen hne hwf
    cases parts with
    | nil => exact absurd rfl hne
    | cons p rest =>
      cases rest with
      | nil =>
        have hps : '/' ∉ p := (hwf p (by simp)).2
        have hps2 : '/' ∉ joinParts [p] := by simpa [joinParts] using hps
        simp [ancestorChainF, hps2, ancPrefixes]
      | cons q rest2 =>
        have hpd := parentDir_joinParts p q rest2 hwf
        have hdlen := parentDir_length hpd
        have hdrne : (p :: q :: rest2).dropLast ≠ [] := by
          have heq : (p :: q :: rest2).dropLast = p :: (q :: rest2).dropLast := rfl
          rw [heq]
          exact List.cons_ne_nil _ _
        have hdrwf : ∀ r ∈ (p :: q :: rest2).dropLast, r ≠ [] ∧ '/' ∉ r := by
          intro r hr
          exact hwf r (List.dropLast_subset _ hr)
        have hIH := ih ((p :: q :: rest2).dropLast) (by omega) hdrne hdrwf
        have hdl : (p :: q :: rest2).dropLast = p :: (q :: rest2).dropLast := rfl
        rw [hdl] at hIH
        have hcon2 : '/' ∈ joinParts (p :: q :: rest2) := by
          rw [joinParts]
          exact List.mem_append_right p (List.mem_cons_self _ _)
        simp [ancestorChainF, hcon2, hpd, hIH, ancPrefixes_cons₂]

theorem ancestorChain_joinParts (parts : List (List Char)) (hne : parts ≠ [])
    (hwf : ∀ p ∈ parts, p ≠ [] ∧ '/' ∉ p) :
    ancestorChain (joinParts parts) = some (ancPrefixes parts) :=
  ancestorChainF_joinParts _ parts (Nat.lt_succ_self _) hne hwf

theorem mem_ancPrefixes (parts : List (List Char)) (d : List Char) :
    d ∈ ancPrefixes parts ↔
      ∃ k, 1 ≤ k ∧ k < parts.length ∧ d = joinParts (parts.take k) := by
  unfold ancPrefixes
  simp only [List.mem_map, List.mem_reverse, List.mem_range]
  constructor
  · rintro ⟨k, hk, heq⟩
    exact ⟨k + 1, by omega, by omega, heq.symm⟩
  · rintro ⟨k, hk1, hk2, heq⟩
    have hk : k - 1 + 1 = k := by omega
    exact ⟨k - 1, by omega, by rw [hk, heq]⟩

theorem insByLenDesc_perm (a : String) :
    ∀ l : List String, (insByLenDesc a l).Perm (a :: l) := by
  intro l
  induction l with
  | nil => exact List.Perm.refl _
  | cons b bs ih =>
    rw [insByLenDesc]
    by_cases hb : b.length ≤ a.length
    · rw [if_pos hb]
    · rw [if_neg hb]
      exact List.Perm.trans (List.Perm.cons b ih) (List.Perm.swap a b bs)

theorem sortByLenDesc_perm : ∀ l : List String, (sortByLenDesc l).Perm l := by
  intro l
  induction l with
  | nil => exact List.Perm.refl _
  | cons a as ih =>
    rw [sortByLenDesc]
    exact List.Perm.trans (insByLenDesc_perm a (sortByLenDesc as)) (List.Perm.cons a ih)

theorem sorted_insByLenDesc (a : String) :
    ∀ l : List String, List.Sorted (fun x y : String => y.length ≤ x.length) l →
      List.Sorted (fun x y : String => y.length ≤ x.length) (insByLenDesc a l) := by
  intro l
  induction l with
  | nil => intro _; simp [insByLenDesc]
  | cons b bs ih =>
    intro h
    obtain ⟨hb1, hb2⟩ := List.sorted_cons.mp h
    rw [insByLenDesc]
    by_cases hb : b.length ≤ a.length
    · rw [if_pos hb]
      refine List.sorted_cons.mpr ⟨?_, h⟩
      intro c hc
      rcases List.mem_cons.mp hc with rfl | hmem
      · exact hb
      · exact Nat.le_trans (hb1 c hmem) hb
    · rw [if_neg hb]
      refine List.sorted_cons.mpr ⟨?_, ih hb2⟩
      intro c hc
      rcases List.mem_cons.mp ((insByLenDesc_perm a bs).mem_iff.mp hc) with rfl | hmem
      · omega
      · exact hb1 c hmem

theorem sorted_sortByLenDesc :
    ∀ l : List String,
      List.Sorted (fun x y : String => y.length ≤ x.length) (sortByLenDesc l) := by
  intro l
  induction l with
  | nil => simp [sortByLenDesc]
  | cons a as ih => exact sorted_insByLenDesc a _ ih

theorem mem_collectDirs : ∀ (ofs ds : List String), collectDirs ofs = some ds →
    ∀ d : String,
      (d ∈ ds ↔ ∃ f ∈ ofs, ∃ ch, ancestorChain f.data = some ch ∧ d.data ∈ ch) := by
  intro ofs
  induction ofs with
  | nil =>
    intro ds h d
    simp [collectDirs] at h
    subst h
    simp
  | cons f fs ih =>
    intro ds h d
    rw [collectDirs] at h
    cases hc : ancestorChain f.data with
    | none => rw [hc] at h; cases h
    | some ch =>
      rw [hc] at h
      cases hr : collectDirs fs with
      | none => rw [hr] at h; cases h
      | some rest =>
        rw [hr] at h
        simp only [Option.some.injEq] at h
        subst h
        rw [List.mem_append]
        constructor
        · rintro (hm | hm)
          · obtain ⟨l, hl, hlm⟩ := List.mem_map.mp hm
            refine ⟨f, by simp, ch, hc, ?_⟩
            have hdl : d.data = l := by rw [← hlm]
            rw [hdl]
            exact hl
          · obtain ⟨f2, hf2, ch2, hch2, hd2⟩ := (ih rest hr d).mp hm
            exact ⟨f2, List.mem_cons_of_mem f hf2, ch2, hch2, hd2⟩
        · rintro ⟨f2, hf2, ch2, hch2, hd2⟩
          rcases List.mem_cons.mp hf2 with rfl | hmem
          · left
            have hceq : ch2 = ch := by
              rw [hc] at hch2
              cases hch2
              rfl
            subst hceq
            exact List.mem_map.mpr ⟨d.data, hd2, by cases d; rfl⟩
          · right
            exact (ih rest hr d).mpr ⟨f2, hmem, ch2, hch2, hd2⟩

/-- The candidate list examined by `rm_empty_folders` is duplicate-free,
sorted longest path string first, and holds exactly the ancestors collected
from the deleted files. -/
theorem orderedDirs_spec (oldfiles ds : List String)
    (h : orderedDirs oldfiles = some ds) :
    ds.Nodup ∧ List.Sorted (fun a b : String => b.length ≤ a.length) ds ∧
      ∀ d, d ∈ ds ↔ ∃ f ∈ oldfiles, ∃ ch, ancestorChain f.data = some ch ∧ d.data ∈ ch := by
  unfold orderedDirs at h
  cases hc : collectDirs oldfiles with
  | none => rw [hc] at h; cases h
  | some cds =>
    rw [hc] at h
    simp only [Option.map_some, Option.map, Option.some.injEq] at h
    subst h
    refine ⟨?_, sorted_sortByLenDesc _, ?_⟩
    · exact ((sortByLenDesc_perm _).nodup_iff).mpr (List.nodup_dedup cds)
    · intro d
      rw [(sortByLenDesc_perm _).mem_iff, List.mem_dedup]
      exact mem_collectDirs oldfiles cds hc d

/-- C8: `rm_empty_folders` considers exactly the deduplicated ancestor
directories of the deleted files (first conjunct: duplicate-free, sorted
longest path string first, membership = being on some deleted file's
ancestor chain; second and third conjuncts: on well-formed paths the
ancestor chain is precisely the proper prefixes of the component list,
longest first, so children sort before their parents); it removes a
directory only if it is empty when visited, and for deleted files
`["a/b/c.txt"]` with `a/b` and `a` both empty it removes both, `a/b` before
`a` (fourth conjunct), while a remaining file under `a` prevents only `a`'s
removal (fifth conjunct). -/
theorem c8_empty_folder_cleanup :
    (∀ (oldfiles ds : List String), orderedDirs oldfiles = some ds →
      ds.Nodup ∧ List.Sorted (fun a b : String => b.length ≤ a.length) ds ∧
      ∀ d, d ∈ ds ↔ ∃ f ∈ oldfiles, ∃ ch, ancestorChain f.data = some ch ∧ d.data ∈ ch) ∧
    (∀ parts : List (List Char), parts ≠ [] → (∀ p ∈ parts, p ≠ [] ∧ '/' ∉ p) →
      ancestorChain (joinParts parts) = some (ancPrefixes parts)) ∧
    (∀ (parts : List (List Char)) (d : List Char),
      d ∈ ancPrefixes parts ↔
        ∃ k, 1 ≤ k ∧ k < parts.length ∧ d = joinParts (parts.take k)) ∧
    rm_empty_folders "L" ["a/b/c.txt"] ⟨[], ["L/a", "L/a/b"]⟩ =
      some (⟨[], []⟩, ["a/b", "a"]) ∧
    rm_empty_folders "L" ["a/b/c.txt"] ⟨[("L/a/keep.txt", ⟨1, 0, []⟩)], ["L/a", "L/a/b"]⟩ =
      some (⟨[("L/a/keep.txt", ⟨1, 0, []⟩)], ["L/a"]⟩, ["a/b"]) :=
  ⟨orderedDirs_spec, ancestorChain_joinParts, mem_ancPrefixes, by decide, by decide⟩

/-- Witness for C8: the ancestor chain of `a/b/c` is `[a/b, a]`. -/
theorem c8_empty_folder_cleanup_witness :
    ancestorChain (joinParts [['a'], ['b'], ['c']]) =
      some [['a', '/', 'b'], ['a']] := by
  have h := c8_empty_folder_cleanup.2.1 [['a'], ['b'], ['c']] (by decide) (by decide)
  rw [h]
  decide

/-- Witness for C6 on a concrete backup-only pair. -/
theorem c6_backup_only_skips_conflict_protocol_witness :
    runPair (fun _ _ fs => fs) 7 "k" ⟨"L", "R", true⟩ ⟨false, true, false⟩
        ⟨⟨[], []⟩, [], []⟩ =
      (⟨FS.touch ⟨[], []⟩ (tstampFile "k") 7, [],
        [Ev.touch (tstampFile "k"),
         Ev.transfer "L" "R" true (run_rclone_cmd "L" "R" true ⟨false, true, false⟩)]⟩,
       ⟨false, true, false⟩, Outcome.ret true) := by
  have h := c6_backup_only_skips_conflict_protocol.2 (fun _ _ fs => fs) 7 "k"
    ⟨"L", "R", true⟩ ⟨false, true, false⟩ ⟨⟨[], []⟩, [], []⟩ (by decide)
  rw [h]
  simp

end GdSync
